import Mathlib

/-!
Verification of the dataSPA playground server against its specification.

The Go sources are shallowly embedded below.  Strings are modelled as lists
of characters (`Str`); Go byte/rune distinctions do not matter for any of
the properties treated here, and ASCII case mapping stands in for the
Unicode tables of `strings.ToLower`/`ToUpper` (the compared literals are
all ASCII).  Machine integers are modelled as `Int`/`Nat` — no value in the
treated code paths approaches 64-bit overflow except in `goAtoi`, where the
int64 range check of `strconv.Atoi` is explicit.
-/

namespace DsPlay

/-- Strings are modelled as lists of characters. -/
abbrev Str := List Char

/-- ASCII lower-casing of one character (model of the `strings.ToLower`
character map restricted to ASCII; non-letters are unchanged). -/
def lowerChar (c : Char) : Char :=
  match c with
  | 'A' => 'a' | 'B' => 'b' | 'C' => 'c' | 'D' => 'd' | 'E' => 'e'
  | 'F' => 'f' | 'G' => 'g' | 'H' => 'h' | 'I' => 'i' | 'J' => 'j'
  | 'K' => 'k' | 'L' => 'l' | 'M' => 'm' | 'N' => 'n' | 'O' => 'o'
  | 'P' => 'p' | 'Q' => 'q' | 'R' => 'r' | 'S' => 's' | 'T' => 't'
  | 'U' => 'u' | 'V' => 'v' | 'W' => 'w' | 'X' => 'x' | 'Y' => 'y'
  | 'Z' => 'z' | c => c

/-- ASCII upper-casing of one character (model of `strings.ToUpper`). -/
def upperChar (c : Char) : Char :=
  match c with
  | 'a' => 'A' | 'b' => 'B' | 'c' => 'C' | 'd' => 'D' | 'e' => 'E'
  | 'f' => 'F' | 'g' => 'G' | 'h' => 'H' | 'i' => 'I' | 'j' => 'J'
  | 'k' => 'K' | 'l' => 'L' | 'm' => 'M' | 'n' => 'N' | 'o' => 'O'
  | 'p' => 'P' | 'q' => 'Q' | 'r' => 'R' | 's' => 'S' | 't' => 'T'
  | 'u' => 'U' | 'v' => 'V' | 'w' => 'W' | 'x' => 'X' | 'y' => 'Y'
  | 'z' => 'Z' | c => c

/-- Model of `strings.ToLower`. -/
def asciiLower (s : Str) : Str := s.map lowerChar

/-- Model of `strings.ToUpper`. -/
def asciiUpper (s : Str) : Str := s.map upperChar

/-- Characters treated as whitespace by `strings.TrimSpace`
(Latin-1 subset of `unicode.IsSpace`; the higher space runes play no
role in the treated inputs). -/
def isSpaceChar (c : Char) : Bool :=
  c == ' ' || c == '\t' || c == '\n' || c == '\r' ||
  c == Char.ofNat 11 || c == Char.ofNat 12 ||
  c == Char.ofNat 0x85 || c == Char.ofNat 0xA0

/-- Model of `strings.TrimSpace`: drop whitespace from both ends. -/
def trimSpaceL (s : Str) : Str :=
  ((s.dropWhile isSpaceChar).reverse.dropWhile isSpaceChar).reverse

/-- Boolean test that the first argument is an initial run of the second
(model of the comparison behind `strings.HasPrefix`). -/
def isPre : Str → Str → Bool
  | [], _ => true
  | _ :: _, [] => false
  | c :: cs, d :: ds => c == d && isPre cs ds

/-- Model of `strings.HasSuffix`. -/
def endsWith (s suf : Str) : Bool := isPre suf.reverse s.reverse

/-- Model of `strings.TrimPrefix`. -/
def stripPre (pre s : Str) : Str :=
  if isPre pre s then s.drop pre.length else s

/-- Index of the first occurrence of `sep` in `s`
(model of `strings.Index`; `none` stands for Go's `-1`). -/
def findSub (sep : Str) : Str → Option Nat
  | [] => if isPre sep [] then some 0 else none
  | c :: rest =>
      if isPre sep (c :: rest) then some 0
      else (findSub sep rest).map (· + 1)

/-- Fuel-driven worker for `splitOnSep`; the fuel is always at least the
length of the string, so the zero-fuel branch is unreachable. -/
def splitGo (sep : Str) : Nat → Str → List Str
  | 0, s => [s]
  | fuel + 1, s =>
      match findSub sep s with
      | none => [s]
      | some i => s.take i :: splitGo sep fuel (s.drop (i + sep.length))

/-- Model of `strings.Split` for a nonempty separator: the list of
substrings between consecutive occurrences of `sep`. -/
def splitOnSep (sep s : Str) : List Str :=
  if sep = [] then [s] else splitGo sep s.length s

/-- Occurrence of `sep` as a contiguous run inside `s` (the property
`strings.Index` and `strings.Split` search for). -/
def occursIn (sep s : Str) : Prop := ∃ a b, a ++ (sep ++ b) = s

/-- One string is a contiguous slice of another; every string transform
in `ParseFile` (trim, drop, take, trim-of-one-end) produces a slice. -/
def sliceOf (r s : Str) : Prop := ∃ u v, u ++ (r ++ v) = s

/-- Numeric value of a digit string (helper for `goAtoi`). -/
def digitsVal (l : Str) : Nat :=
  l.foldl (fun a c => a * 10 + (c.toNat - 48)) 0

/-- Boolean test that every character is an ASCII digit. -/
def allDigits (l : Str) : Bool :=
  l.all fun c => decide (48 ≤ c.toNat ∧ c.toNat ≤ 57)

/-- Model of `strconv.Atoi` (= `strconv.ParseInt` base 10, 64-bit int):
an optional sign followed by at least one digit, with the int64 range
check; any failure (including overflow) is `none`. -/
def goAtoi (s : Str) : Option Int :=
  if s = [] then none
  else
    let digits :=
      if s.headD ' ' = '-' ∨ s.headD ' ' = '+' then s.drop 1 else s
    if digits = [] then none
    else if ¬ allDigits digits then none
    else
      let v : Int :=
        if s.headD ' ' = '-' then -(digitsVal digits : Int)
        else (digitsVal digits : Int)
      if v < -(2 ^ 63) ∨ (2 ^ 63 : Int) - 1 < v then none else some v

/-- Frontmatter of a template file (`Frontmatter` in the Go source).
`handler.go` additionally reads the fields `Count` and `Delay`; the struct
declaration carrying them is not among the provided files, so those two
fields are modelled from the spec (`count: int`, default 0 = "forever";
`delay: int` ms, default 0 → 5000 when used). -/
structure Frontmatter where
  loop : Bool := false
  interval : Int := 0
  status : Int := 0
  count : Int := 0
  delay : Int := 0
deriving DecidableEq, Repr, Inhabited

/-- A parsed template file (`ParsedFile` in the Go source; the on-disk
path is kept as an opaque string). -/
structure ParsedFile where
  frontmatter : Frontmatter := {}
  sections : List Str := []
  path : String := ""
  seqIndex : Int := -1
deriving DecidableEq, Repr, Inhabited

/-- Value of one frontmatter line applied to the options record.
Modelled from the spec: the options block is a key/value decode
(the yaml.v3 library is outside the repository).  Blank lines are
skipped, unknown keys are ignored, a line without a colon or with an
unreadable value is a decode error (`none`). -/
def applyFMLine (fm : Frontmatter) (line : Str) : Option Frontmatter :=
  let t := trimSpaceL line
  if t = [] then some fm
  else
    match findSub [':'] t with
    | none => none
    | some i =>
        let key := trimSpaceL (t.take i)
        let val := trimSpaceL (t.drop (i + 1))
        if key = "loop".data then
          if val = "true".data then some { fm with loop := true }
          else if val = "false".data then some { fm with loop := false }
          else none
        else if key = "interval".data then
          (goAtoi val).map fun n => { fm with interval := n }
        else if key = "status".data then
          (goAtoi val).map fun n => { fm with status := n }
        else if key = "count".data then
          (goAtoi val).map fun n => { fm with count := n }
        else if key = "delay".data then
          (goAtoi val).map fun n => { fm with delay := n }
        else some fm

/-- Decode of the whole options block, line by line. -/
def parseFM (s : Str) : Option Frontmatter :=
  (splitOnSep ['\n'] s).foldl
    (fun acc line => acc.bind fun fm => applyFMLine fm line) (some {})

/-- Split a body into trimmed sections, keeping empty segments, and
apply the (unreachable) empty-list guard — the tail of `ParseFile`. -/
def mkSections (body : Str) : List Str :=
  let secs := (splitOnSep ("\n===\n".data) body).map trimSpaceL
  if secs.length = 0 then [[]] else secs

/-- Model of `ParseFile` on the raw file content (the `os.ReadFile`
I/O wrapper is dropped): optional `---`-delimited frontmatter, then the
body split on `\n===\n` into trimmed sections; a frontmatter decode
error is a file error (`none`). -/
def parseFileContent (content : Str) : Option ParsedFile :=
  let trimmed := trimSpaceL content
  if isPre ("---".data) trimmed then
    let rest := trimmed.drop 3
    match findSub ("\n---".data) rest with
    | some endIdx =>
        let fmContent := rest.take endIdx
        match parseFM fmContent with
        | none => none
        | some fm =>
            let afterClose := rest.drop (endIdx + 4)
            let body := stripPre ['\n'] afterClose
            some { frontmatter := fm, sections := mkSections body }
    | none => some { sections := mkSections content }
  else some { sections := mkSections content }

/-- Index of the last `'_'` in a stem (model of
`strings.LastIndex(stem, "_")`; `none` stands for `-1`). -/
def lastUnderscore? : Str → Option Nat
  | [] => none
  | c :: rest =>
      match lastUnderscore? rest with
      | some i => some (i + 1)
      | none => if c = '_' then some 0 else none

/-- Model of `extractSeqIndex`: split a `_NNN` suffix off a filename stem,
returning the base and the parsed index (`-1` if none). -/
def extractSeqIndex (stem : Str) : Str × Int :=
  match lastUnderscore? stem with
  | none => (stem, -1)
  | some i =>
      let suffix := stem.drop (i + 1)
      match goAtoi suffix with
      | some n => if 0 < suffix.length then (stem.take i, n) else (stem, -1)
      | none => (stem, -1)

/-- The `knownMethods` set of the Go source, as a membership test. -/
def isKnownMethod (l : Str) : Prop :=
  l = "get".data ∨ l = "post".data ∨ l = "put".data ∨
  l = "patch".data ∨ l = "delete".data

instance (l : Str) : Decidable (isKnownMethod l) := by
  unfold isKnownMethod; infer_instance

/-- Model of `classifyFile`: determine `(method, isSSE, seqIdx)` from a
filename stem. -/
def classifyFile (stem : Str) : Str × Bool × Int :=
  let r0 := extractSeqIndex stem
  let remaining := r0.1
  let seqIdx := r0.2
  if asciiLower remaining = "sse".data then ([], true, seqIdx)
  else
    let r1 : Bool × Str :=
      if endsWith (asciiLower remaining) ("_sse".data) then
        (true, remaining.take (remaining.length - 4))
      else (false, remaining)
    let isSSE := r1.1
    let rem := r1.2
    if isKnownMethod (asciiLower rem) then (asciiUpper rem, isSSE, seqIdx)
    else ([], isSSE, seqIdx)

/-- Session sequence-position store: the `seq_pos` map of the session,
with Go's zero-value default for missing keys. -/
def SeqStore := String → Nat

/-- Model of `SessionManager.GetSeqPos`. -/
def getSeqPos (store : SeqStore) (key : String) : Nat := store key

/-- Model of `SessionManager.AdvanceSeqPos`: increment the stored
position for `key`, wrapping modulo `totalSteps` when `loop` is set and
saturating at `totalSteps - 1` otherwise. -/
def advanceSeqPos (store : SeqStore) (key : String) (totalSteps : Nat)
    (loop : Bool) : SeqStore :=
  let pos := store key + 1
  let pos := if loop then pos % totalSteps
             else if totalSteps ≤ pos then totalSteps - 1 else pos
  fun k => if k = key then pos else store k

/-- One flattened section (`sectionEntry` in `handler.go`). -/
structure SectionEntry where
  content : Str := []
  frontmatter : Frontmatter := {}
  fileIndex : Nat := 0
deriving DecidableEq, Repr, Inhabited

/-- Model of `collectSections`: flatten files and their sections into a
linear sequence, tagging each entry with its source-file index. -/
def collectSections (files : List ParsedFile) : List SectionEntry :=
  (files.enum.map fun fi =>
    fi.2.sections.map fun s =>
      { content := s, frontmatter := fi.2.frontmatter, fileIndex := fi.1 }).flatten

/-- Model of `fileGroupStart`: first index of the run of sections that
share a file with `sections[pos]`. -/
def fileGroupStart (sections : List SectionEntry) (pos : Nat) : Nat :=
  let fi := (sections.getD pos default).fileIndex
  let rec go : Nat → Nat
    | 0 => 0
    | start + 1 =>
        if (sections.getD start default).fileIndex = fi then go start
        else start + 1
  go pos

/-- Model of `fileGroupLen`: number of consecutive sections starting at
`start` that belong to the same file. -/
def fileGroupLen (sections : List SectionEntry) (start : Nat) : Nat :=
  if sections.length ≤ start then 0
  else
    let fi := (sections.getD start default).fileIndex
    let rec go (len : Nat) (fuel : Nat) : Nat :=
      match fuel with
      | 0 => len
      | fuel + 1 =>
          if start + len < sections.length ∧
             (sections.getD (start + len) default).fileIndex = fi then
            go (len + 1) fuel
          else len
    go 1 sections.length

/-- Clamp of an index into the section list (`pos >= len(sections)`
branch of `sendSSESection` and the analogous clamps elsewhere). -/
def clampIdx (sections : List SectionEntry) (pos : Nat) : Nat :=
  if sections.length ≤ pos then sections.length - 1 else pos

/-- Model of `sendSSESection`, parameterised by the template renderer:
clamp the position, skip empty bodies without error, otherwise render
and emit one patch.  The result is `ok` with the list of emitted patch
positions (empty for a skipped body) or `error` for a render failure. -/
def sendSSESection (render : Str → Option Str) (sections : List SectionEntry)
    (pos : Nat) : Except Unit (List Nat) :=
  let i := clampIdx sections pos
  let s := sections.getD i default
  if s.content = [] then .ok []
  else
    match render s.content with
    | none => .error ()
    | some _ => .ok [i]

/-- Rendering modelled as always succeeding (render failures close the
connection; no claim scenario involves one). -/
def idRender : Str → Option Str := fun s => some s

/-- Patch positions emitted by one `sendSSESection` call under a
successful render. -/
def emitAt (sections : List SectionEntry) (pos : Nat) : List Nat :=
  match sendSSESection idRender sections pos with
  | .ok e => e
  | .error _ => []

/-- Mutable state of the looping live-stream mode (`loopPos`,
`groupStart`, `groupLen`, `groupTicks`, `count`, `messageCount`,
`loopIteration` in `handleSSE`). -/
structure LoopState where
  loopPos : Nat := 0
  groupStart : Nat := 0
  groupLen : Nat := 0
  groupTicks : Nat := 0
  count : Int := 0
  messageCount : Int := 1
  loopIteration : Int := 0
deriving DecidableEq, Repr, Inhabited

/-- Result of handling one timer tick: either the connection stays open
with a new state, or it closes; in both cases the emitted patch
positions are recorded. -/
inductive TickResult where
  | cont (emitted : List Nat) (st : LoopState)
  | closed (emitted : List Nat)
deriving DecidableEq, Repr

/-- Patches emitted by the drain-and-close branch: every section of the
group starting at `start` is sent once, in order. -/
def drainEmits (sections : List SectionEntry) (start len : Nat) : List Nat :=
  ((List.range len).map fun i => emitAt sections (start + i)).flatten

/-- Shared tail of the tick handler: bump the loop-iteration counter,
send the section at the (already updated) position, bump the message
counter. -/
def emitCommon (sections : List SectionEntry) (st : LoopState) : TickResult :=
  let st := { st with loopIteration := st.loopIteration + 1 }
  let e := emitAt sections st.loopPos
  .cont e { st with messageCount := st.messageCount + 1 }

/-- Advance within the current counted group and emit
(the two lines after the group-exhaustion check, plus the shared tail). -/
def countedAdvance (sections : List SectionEntry) (st : LoopState) : TickResult :=
  let st := { st with loopPos := st.groupStart + st.groupTicks % st.groupLen,
                      groupTicks := st.groupTicks + 1 }
  emitCommon sections st

/-- Model of the `case <-ticker.C:` branch of `handleSSE`'s looping
mode.  Rendering is modelled as succeeding; timer-period changes
(`ticker.Reset`) affect real time only, not the event order, and are
dropped. -/
def tickStep (sections : List SectionEntry) (st : LoopState) : TickResult :=
  if 0 < st.count then
    if st.count * (st.groupLen : Int) ≤ (st.groupTicks : Int) then
      let nextStart := st.groupStart + st.groupLen
      if sections.length ≤ nextStart then .closed []
      else
        let nextSection := sections.getD nextStart default
        let st := { st with groupStart := nextStart,
                            groupLen := fileGroupLen sections nextStart,
                            count := nextSection.frontmatter.count,
                            groupTicks := 0 }
        if ¬ nextSection.frontmatter.loop ∨ nextSection.frontmatter.interval ≤ 0 then
          .closed (drainEmits sections nextStart st.groupLen)
        else countedAdvance sections st
    else countedAdvance sections st
  else
    emitCommon sections { st with loopPos := (st.loopPos + 1) % sections.length }

/-- Run the looping mode for at most `fuel` ticks, collecting the
emitted patch positions and whether the connection closed. -/
def runLoop (sections : List SectionEntry) : Nat → LoopState → List Nat × Bool
  | 0, _ => ([], false)
  | fuel + 1, st =>
      match tickStep sections st with
      | .closed e => (e, true)
      | .cont e st' =>
          let r := runLoop sections fuel st'
          (e ++ r.1, r.2)

/-- Entry of `handleSSE` (INIT): the first section's options select the
mode; in looping mode the stored cursor is read and clamped, otherwise
the cursor starts at 0.  The session store is returned unchanged —
`handleSSE` contains no `AdvanceSeqPos` call. -/
def sseInit (sections : List SectionEntry) (store : SeqStore) (key : String) :
    Nat × SeqStore :=
  let s0 := sections.headD default
  if s0.frontmatter.loop ∧ 0 < s0.frontmatter.interval then
    let pos := getSeqPos store key
    let pos := if sections.length ≤ pos then sections.length - 1 else pos
    (pos, store)
  else (0, store)

/-- Initial `LoopState` of the looping mode (the lines before the
`for`-`select` loop: `loopPos := pos`, `messageCount := 1`, and the
group trackers when `count > 0`; `count`, `loop`, `interval` are read
from `allSections[0]`). -/
def initLoopState (sections : List SectionEntry) (pos : Nat) : LoopState :=
  let count := (sections.headD default).frontmatter.count
  let base : LoopState := { loopPos := pos, count := count }
  if 0 < count then
    let gs := fileGroupStart sections pos
    { base with groupStart := gs, groupLen := fileGroupLen sections gs,
                groupTicks := 1 }
  else base

/-- Full tick-driven run of the looping live-stream mode: INIT (initial
emission of the selected section when nonempty) followed by at most
`fuel` timer ticks.  Bridge messages and cancellation are external
events outside this deterministic projection. -/
def sseLoopRun (sections : List SectionEntry) (store : SeqStore) (key : String)
    (fuel : Nat) : List Nat × Bool :=
  let pos := (sseInit sections store key).1
  let s := sections.getD pos default
  let initE := if s.content = [] then [] else emitAt sections pos
  let r := runLoop sections fuel (initLoopState sections pos)
  (initE ++ r.1, r.2)

/-- Dynamically typed signal values (`map[string]any` entries decoded
from JSON). -/
inductive SigVal where
  | null
  | bool (b : Bool)
  | num (n : Int)
  | str (s : String)
deriving DecidableEq, Repr

/-- The signal map, keyed by string (`TemplateData.Signals`). -/
abbrev SigMap := List (String × SigVal)

/-- Value stored under a key (first match). -/
def getVal : SigMap → String → Option SigVal
  | [], _ => none
  | (k', v) :: rest, k => if k' = k then some v else getVal rest k

/-- Model of the Go map assignment `td.Signals[k] = v`: overwrite the
binding in place or append a new one. -/
def setKey : SigMap → String → SigVal → SigMap
  | [], k, v => [(k, v)]
  | (k', v') :: rest, k, v =>
      if k' = k then (k', v) :: rest else (k', v') :: setKey rest k v

/-- Model of `mergeNATSSignals` at the decoded-payload level: fold every
field of the inbound message into the signal map.  (The empty-payload
and JSON-decode-failure guards return the map unchanged and are outside
this function.) -/
def mergeSignals (m : SigMap) (incoming : SigMap) : SigMap :=
  incoming.foldl (fun acc kv => setKey acc kv.1 kv.2) m

/-- Outcome of the HTML path's response writing. -/
inductive HtmlOut where
  | noBody (status : Int)
  | page (status : Int) (body : Str)
  | errorOut (status : Int)
deriving DecidableEq, Repr

/-- Model of the response-writing tail of `handleHTML`, parameterised by
the template renderer: empty sections get status 204 (unless the
`status` option overrides it) and no body; otherwise the section is
rendered (failure → 500) and written with the option status or 200. -/
def handleHTMLOut (render : Str → Option Str) (content : Str) (st : Int) :
    HtmlOut :=
  if content = [] then .noBody (if st = 0 then 204 else st)
  else
    match render content with
    | none => .errorOut 500
    | some r => .page (if st = 0 then 200 else st) r

/-- Model of the sequencing part of `handleHTML`: read and clamp the
stored cursor, select that section, and — when more than one section
exists — advance the stored cursor (re-read from the store) before the
response is written.  Returns the served index and the new store. -/
def handleHTMLStep (sections : List SectionEntry) (store : SeqStore)
    (key : String) : Nat × SeqStore :=
  let pos := getSeqPos store key
  let pos := if sections.length ≤ pos then sections.length - 1 else pos
  let s := sections.getD pos default
  let store' :=
    if 1 < sections.length then
      advanceSeqPos store key sections.length s.frontmatter.loop
    else store
  (pos, store')

/-- Served cursor positions over `n` successive HTML requests. -/
def htmlTrace (sections : List SectionEntry) (key : String) :
    Nat → SeqStore → List Nat
  | 0, _ => []
  | n + 1, store =>
      let r := handleHTMLStep sections store key
      r.1 :: htmlTrace sections key n r.2

/-- Route-level file tables (`RouteFiles`), as total maps with Go's
nil-slice default for missing methods. -/
structure RouteFiles where
  HTMLFiles : String → List ParsedFile
  SSEFiles : String → List ParsedFile

/-- String upper-casing at `String` type (wrapper over `asciiUpper`). -/
def upperStr (s : String) : String := ⟨asciiUpper s.data⟩

/-- Model of `RouteFiles.LookupHTML`: the method-specific list when
nonempty, else the "any method" list. -/
def lookupHTML (rf : RouteFiles) (method : String) : List ParsedFile :=
  let files := rf.HTMLFiles (upperStr method)
  if files ≠ [] then files else rf.HTMLFiles ""

/-- Model of `RouteFiles.LookupSSE`. -/
def lookupSSE (rf : RouteFiles) (method : String) : List ParsedFile :=
  let files := rf.SSEFiles (upperStr method)
  if files ≠ [] then files else rf.SSEFiles ""

/-- Outcome of the dispatcher's handler selection. -/
inductive Dispatch where
  | sse (files : List ParsedFile)
  | html (files : List ParsedFile)
  | notFound
deriving DecidableEq

/-- Model of the handler-selection tail of `ServePlayground`: a
datastar request with a nonempty live-stream list goes to `handleSSE`;
otherwise a nonempty HTML list goes to `handleHTML`; otherwise 404. -/
def dispatch (rf : RouteFiles) (isDS : Bool) (method : String) : Dispatch :=
  if isDS ∧ lookupSSE rf method ≠ [] then .sse (lookupSSE rf method)
  else if lookupHTML rf method ≠ [] then .html (lookupHTML rf method)
  else .notFound

/-- Boolean test that the post-underscore suffix of a stem carries an
explicit negative sign (the situation in which `strconv.Atoi` can
return a value below `-1`). -/
def negSignedSuffix (stem : Str) : Bool :=
  match lastUnderscore? stem with
  | none => false
  | some i => (stem.drop (i + 1)).headD ' ' == '-'

/-! Concrete instances used by the claim theorems and witnesses. -/

/-- A fresh session sequence store (all cursors at Go's zero value). -/
def store0 : SeqStore := fun _ => 0

/-- A live-path sequence key for a demo route. -/
def keyC1 : String := "/demo/:sse:GET"

/-- Two sections of one non-looping file (live path, INIT scenario). -/
def secsC1 : List SectionEntry :=
  [{ content := "one".data }, { content := "two".data, fileIndex := 0 }]

/-- Frontmatter of file A in the counted-loop scenario:
`loop:true, interval:100, count:3`. -/
def fmA : Frontmatter := { loop := true, interval := 100, count := 3 }

/-- Frontmatter of file B in the counted-loop scenario: `loop:false`. -/
def fmB : Frontmatter := { }

/-- Flattened sections of file A (one section) followed by file B
(two sections). -/
def secsC2 : List SectionEntry :=
  [{ content := "a".data, frontmatter := fmA, fileIndex := 0 },
   { content := "b1".data, frontmatter := fmB, fileIndex := 1 },
   { content := "b2".data, frontmatter := fmB, fileIndex := 1 }]

/-- Three sections with the `loop` option unset. -/
def nonloop3 : List SectionEntry :=
  [{ content := "x".data }, { content := "y".data }, { content := "z".data }]

/-- Three sections with the `loop` option set. -/
def loop3 : List SectionEntry :=
  [{ content := "x".data, frontmatter := { loop := true } },
   { content := "y".data, frontmatter := { loop := true } },
   { content := "z".data, frontmatter := { loop := true } }]

/-- The section-split example file content of the spec. -/
def exC5 : Str := ("---\nloop: true\n---\nA\n===\n\n===\nB").data

/-- A route whose only HTML list is keyed to the "any method" entry. -/
def anyOnlyRoute (fs : List ParsedFile) : RouteFiles :=
  { HTMLFiles := fun m => if m = "" then fs else [],
    SSEFiles := fun _ => [] }

/-- A route whose only HTML list is keyed to GET. -/
def getOnlyRoute (fs : List ParsedFile) : RouteFiles :=
  { HTMLFiles := fun m => if m = "GET" then fs else [],
    SSEFiles := fun _ => [] }

/-- A demo parsed file. -/
def pfDemo : ParsedFile := { sections := [[]] }

/-- A route with one "any method" live-stream file and no HTML files. -/
def sseOnlyRoute : RouteFiles :=
  { HTMLFiles := fun _ => [],
    SSEFiles := fun m => if m = "" then [pfDemo] else [] }

/-! Theorems. -/

/-- C1 (counterexample): on the live path with a two-section non-looping
list and a fresh session, `handleSSE` leaves the stored sequence cursor
untouched, contradicting the claim that it is immediately advanced by
the §4.5 rule (which would store 1). -/
theorem c1_counterexample :
    1 < secsC1.length ∧
    ¬ (sseInit secsC1 store0 keyC1).2 keyC1 =
        advanceSeqPos store0 keyC1 secsC1.length
          ((secsC1.getD 0 default).frontmatter.loop) keyC1 := by
  constructor
  · decide
  · intro h
    simp only [sseInit, secsC1, store0, keyC1, advanceSeqPos] at h
    revert h
    decide

/-- C1 (amended): on entry to the live-stream engine, whenever the first
section is not both looping and positive-interval, the cursor starts at
0 and the session's stored sequence store is returned unchanged — no
cursor advance happens on the live path. -/
theorem c1_no_advance_at_init :
    ∀ (sections : List SectionEntry) (store : SeqStore) (key : String),
    ¬ ((sections.headD default).frontmatter.loop ∧
        0 < (sections.headD default).frontmatter.interval) →
    (sseInit sections store key).1 = 0 ∧ (sseInit sections store key).2 = store := by
  intro sections store key h
  unfold sseInit
  rw [if_neg h]
  exact ⟨rfl, rfl⟩

/-- Witness for `c1_no_advance_at_init` at the concrete scenario. -/
theorem c1_no_advance_at_init_witness :
    (sseInit secsC1 store0 keyC1).1 = 0 ∧ (sseInit secsC1 store0 keyC1).2 = store0 :=
  c1_no_advance_at_init secsC1 store0 keyC1 (by decide)

/-- C3: one HTML request serves the stored cursor position and commits
`(c+1) mod n` when the served section loops and `min (c+1) (n-1)`
otherwise; the cursor traces over 5 requests are `0,1,2,2,2` for a
3-section non-looping route and `0,1,2,0,1` for a looping one. -/
theorem c3_html_cursor_advance :
    (∀ (sections : List SectionEntry) (store : SeqStore) (key : String),
      1 < sections.length → store key < sections.length →
      (handleHTMLStep sections store key).1 = store key ∧
      (handleHTMLStep sections store key).2 key =
        (if (sections.getD (store key) default).frontmatter.loop
         then (store key + 1) % sections.length
         else min (store key + 1) (sections.length - 1)))
    ∧ htmlTrace nonloop3 "k" 5 store0 = [0, 1, 2, 2, 2]
    ∧ htmlTrace loop3 "k" 5 store0 = [0, 1, 2, 0, 1] := by
  refine ⟨?_, by decide, by decide⟩
  intro sections store key hlen hpos
  have hclamp : ¬ sections.length ≤ store key := Nat.not_le.mpr hpos
  constructor
  · simp [handleHTMLStep, getSeqPos, hclamp]
  · unfold handleHTMLStep getSeqPos advanceSeqPos
    dsimp only
    rw [if_neg hclamp, if_pos hlen, if_pos rfl]
    split
    · rfl
    · split <;> omega

/-- Witness for `c3_html_cursor_advance` at the concrete non-looping
3-section route with cursor 0. -/
theorem c3_html_cursor_advance_witness :
    (handleHTMLStep nonloop3 store0 "k").1 = store0 "k" ∧
    (handleHTMLStep nonloop3 store0 "k").2 "k" =
      (if (nonloop3.getD (store0 "k") default).frontmatter.loop
       then (store0 "k" + 1) % nonloop3.length
       else min (store0 "k" + 1) (nonloop3.length - 1)) :=
  c3_html_cursor_advance.1 nonloop3 store0 "k" (by decide) (by decide)

/-- C7: the HTML path's status is the section's `status` option when
nonzero and 200 otherwise, except that an empty body is answered with
status 204 (or the nonzero option) and no rendered body. -/
theorem c7_html_status :
    ∀ (render : Str → Option Str) (content : Str) (st : Int),
    (content = [] →
      handleHTMLOut render content st = .noBody (if st = 0 then 204 else st)) ∧
    (∀ r, content ≠ [] → render content = some r →
      handleHTMLOut render content st = .page (if st = 0 then 200 else st) r) := by
  intro render content st
  constructor
  · intro h
    simp [handleHTMLOut, h]
  · intro r hne hr
    simp [handleHTMLOut, hne, hr]

/-- Witness for `c7_html_status`: an empty section with `status` 0 gives
a bodiless 204, and a nonempty section with `status` 0 renders at 200. -/
theorem c7_html_status_witness :
    handleHTMLOut idRender [] 0 = .noBody (if (0 : Int) = 0 then 204 else 0) ∧
    handleHTMLOut idRender "x".data 0 =
      .page (if (0 : Int) = 0 then 200 else 0) "x".data :=
  ⟨(c7_html_status idRender [] 0).1 rfl,
   (c7_html_status idRender "x".data 0).2 "x".data (by decide) rfl⟩

/-- C8: the "any method" fallback — a route with only an "any method"
HTML list serves the same list for GET and POST; a route with only a
GET list yields no HTML list for POST, so the dispatcher answers 404;
and a datastar request is handed to the live-stream engine exactly when
the post-fallback live-stream list is nonempty, otherwise the HTML path
is tried as for a non-datastar request. -/
theorem c8_method_fallback :
    (∀ fs : List ParsedFile,
      lookupHTML (anyOnlyRoute fs) "GET" = fs ∧
      lookupHTML (anyOnlyRoute fs) "POST" = fs)
    ∧ (∀ fs : List ParsedFile,
      lookupHTML (getOnlyRoute fs) "POST" = [] ∧
      ∀ isDS, dispatch (getOnlyRoute fs) isDS "POST" = .notFound)
    ∧ (∀ (rf : RouteFiles) (method : String),
      (lookupSSE rf method ≠ [] →
        dispatch rf true method = .sse (lookupSSE rf method)) ∧
      (lookupSSE rf method = [] →
        dispatch rf true method = dispatch rf false method)) := by
  refine ⟨?_, ?_, ?_⟩
  · intro fs
    constructor <;> simp [lookupHTML, anyOnlyRoute, upperStr, asciiUpper, upperChar]
  · intro fs
    have hhtml : lookupHTML (getOnlyRoute fs) "POST" = [] := by
      simp [lookupHTML, getOnlyRoute, upperStr, asciiUpper, upperChar]
    have hsse : lookupSSE (getOnlyRoute fs) "POST" = [] := by
      simp [lookupSSE, getOnlyRoute]
    refine ⟨hhtml, fun isDS => ?_⟩
    simp [dispatch, hhtml, hsse]
  · intro rf method
    constructor
    · intro h
      simp [dispatch, h]
    · intro h
      simp [dispatch, h]

/-- Witness for `c8_method_fallback`: the datastar-request arm at a
route with one "any method" live-stream file. -/
theorem c8_method_fallback_witness :
    dispatch sseOnlyRoute true "GET" = .sse (lookupSSE sseOnlyRoute "GET") ∧
    dispatch (getOnlyRoute [pfDemo]) true "GET" =
      dispatch (getOnlyRoute [pfDemo]) false "GET" :=
  ⟨(c8_method_fallback.2.2 sseOnlyRoute "GET").1 (by decide),
   (c8_method_fallback.2.2 (getOnlyRoute [pfDemo]) "GET").2 (by decide)⟩

/-- C10: sending one live-stream section clamps an out-of-range position
to the last index (never indexing out of bounds), a section with an
empty body yields no patch and no error for any renderer, and a timer
tick in non-counted mode still advances the position, message and
iteration counters and keeps the connection open even when the section
at the new position is empty. -/
theorem c10_send_clamps_and_skips_empty :
    ∀ (render : Str → Option Str) (sections : List SectionEntry) (pos : Nat)
      (st : LoopState),
    sections ≠ [] →
    (clampIdx sections pos < sections.length
     ∧ (sections.length ≤ pos → clampIdx sections pos = sections.length - 1)
     ∧ (pos < sections.length → clampIdx sections pos = pos))
    ∧ ((sections.getD (clampIdx sections pos) default).content = [] →
        sendSSESection render sections pos = .ok [])
    ∧ (st.count ≤ 0 →
        tickStep sections st =
          .cont (emitAt sections ((st.loopPos + 1) % sections.length))
            { st with loopPos := (st.loopPos + 1) % sections.length,
                      messageCount := st.messageCount + 1,
                      loopIteration := st.loopIteration + 1 }) := by
  intro render sections pos st hne
  have hlen : 0 < sections.length := List.length_pos.mpr hne
  refine ⟨⟨?_, ?_, ?_⟩, ?_, ?_⟩
  · unfold clampIdx
    split <;> omega
  · intro h
    simp [clampIdx, h]
  · intro h
    simp [clampIdx, Nat.not_le.mpr h]
  · intro h
    unfold sendSSESection
    dsimp only
    rw [if_pos h]
  · intro h
    have : ¬ 0 < st.count := by omega
    simp only [tickStep, this, if_false]
    rfl

/-- Witness for `c10_send_clamps_and_skips_empty`: a two-section list
with an empty second body, probed past the end, and a non-counted tick. -/
theorem c10_send_clamps_and_skips_empty_witness :
    (clampIdx [{ content := "x".data }, { content := [] }] 7 <
      ([{ content := "x".data }, { content := [] }] : List SectionEntry).length
     ∧ (([{ content := "x".data }, { content := [] }] : List SectionEntry).length ≤ 7 →
        clampIdx [{ content := "x".data }, { content := [] }] 7 =
          ([{ content := "x".data }, { content := [] }] : List SectionEntry).length - 1)
     ∧ (7 < ([{ content := "x".data }, { content := [] }] : List SectionEntry).length →
        clampIdx [{ content := "x".data }, { content := [] }] 7 = 7))
    ∧ ((([{ content := "x".data }, { content := [] }] : List SectionEntry).getD
          (clampIdx [{ content := "x".data }, { content := [] }] 7) default).content = [] →
        sendSSESection idRender [{ content := "x".data }, { content := [] }] 7 = .ok [])
    ∧ (({} : LoopState).count ≤ 0 →
        tickStep [{ content := "x".data }, { content := [] }] {} =
          .cont (emitAt [{ content := "x".data }, { content := [] }]
              ((({} : LoopState).loopPos + 1) %
                ([{ content := "x".data }, { content := [] }] : List SectionEntry).length))
            { ({} : LoopState) with
                loopPos := (({} : LoopState).loopPos + 1) %
                  ([{ content := "x".data }, { content := [] }] : List SectionEntry).length,
                messageCount := ({} : LoopState).messageCount + 1,
                loopIteration := ({} : LoopState).loopIteration + 1 }) :=
  c10_send_clamps_and_skips_empty idRender
    [{ content := "x".data }, { content := [] }] 7 {} (by decide)

/-- C2: over file A (`loop:true, interval:100, count:3`, one section)
followed by file B (`loop:false`, two sections), starting at cursor 0,
the tick-driven live stream emits A's section exactly 3 times (the
initial emission plus two ticks), then B's two sections once each in
order, and then closes — for any number of further timer ticks. -/
theorem c2_counted_loop_transition :
    ∀ fuel : Nat, sseLoopRun secsC2 store0 "k" (fuel + 3) = ([0, 0, 0, 1, 2], true) := by
  intro fuel
  have h1 : tickStep secsC2 (initLoopState secsC2 0) =
      .cont [0] ⟨0, 0, 1, 2, 3, 2, 1⟩ := by decide
  have h2 : tickStep secsC2 ⟨0, 0, 1, 2, 3, 2, 1⟩ =
      .cont [0] ⟨0, 0, 1, 3, 3, 3, 2⟩ := by decide
  have h3 : tickStep secsC2 ⟨0, 0, 1, 3, 3, 3, 2⟩ = .closed [1, 2] := by decide
  have hrun : runLoop secsC2 (fuel + 3) (initLoopState secsC2 0) = ([0, 0, 1, 2], true) := by
    show runLoop secsC2 (fuel + 2 + 1) (initLoopState secsC2 0) = _
    simp only [runLoop, h1, h2, h3]
    rfl
  have hpos : (sseInit secsC2 store0 "k").1 = 0 := by decide
  unfold sseLoopRun
  dsimp only
  rw [hpos, hrun]
  decide

/-- Looking up a key not bound by `setKey`'s target leaves the result of
`getVal` unchanged. -/
theorem getVal_setKey_ne (m : SigMap) (k' k : String) (v : SigVal) (h : k' ≠ k) :
    getVal (setKey m k' v) k = getVal m k := by
  induction m with
  | nil => simp [setKey, getVal, h]
  | cons kv rest ih =>
      obtain ⟨k0, v0⟩ := kv
      by_cases h0 : k0 = k'
      · subst h0
        simp [setKey, getVal, h]
      · simp only [setKey, if_neg h0]
        by_cases h1 : k0 = k
        · simp [getVal, h1]
        · simp [getVal, h1, ih]

/-- Looking up the key just written by `setKey` yields the new value. -/
theorem getVal_setKey_self (m : SigMap) (k : String) (v : SigVal) :
    getVal (setKey m k v) k = some v := by
  induction m with
  | nil => simp [setKey, getVal]
  | cons kv rest ih =>
      obtain ⟨k0, v0⟩ := kv
      by_cases h0 : k0 = k
      · simp [setKey, getVal, h0]
      · simp [setKey, getVal, h0, ih]

/-- `setKey` never drops a bound key. -/
theorem getVal_setKey_isSome (m : SigMap) (k' k : String) (v : SigVal)
    (h : (getVal m k).isSome) : (getVal (setKey m k' v) k).isSome := by
  by_cases hk : k' = k
  · subst hk
    simp [getVal_setKey_self]
  · rwa [getVal_setKey_ne m k' k v hk]

/-- A key absent from the whole inbound payload is untouched by the
merge. -/
theorem getVal_merge_absent (inc : SigMap) :
    ∀ (m : SigMap) (k : String), getVal inc k = none →
    getVal (mergeSignals m inc) k = getVal m k := by
  induction inc with
  | nil => intro m k _; rfl
  | cons kv rest ih =>
      intro m k h
      obtain ⟨k1, v1⟩ := kv
      have hne : k1 ≠ k := by
        intro he
        simp [getVal, he] at h
      have hrest : getVal rest k = none := by
        simpa [getVal, hne] using h
      show getVal (mergeSignals (setKey m k1 v1) rest) k = getVal m k
      rw [ih (setKey m k1 v1) k hrest, getVal_setKey_ne m k1 k v1 hne]

/-- A key absent from an association list evaluates to `none`. -/
theorem getVal_eq_none_of_not_mem (l : SigMap) (k : String)
    (h : k ∉ l.map Prod.fst) : getVal l k = none := by
  induction l with
  | nil => rfl
  | cons kv rest ih =>
      obtain ⟨k0, v0⟩ := kv
      simp only [List.map_cons, List.mem_cons, not_or] at h
      have h0 : ¬ k0 = k := fun he => h.1 he.symm
      simp [getVal, h0, ih h.2]

/-- C6: merging an inbound bridge payload into the signal map is
non-destructive — every inbound key overwrites, every other prior key
keeps its value, no bound key is removed — and merging `{b:3,c:4}` into
`{a:1,b:2}` yields exactly `{a:1,b:3,c:4}`. -/
theorem c6_signal_merge :
    (∀ (m inc : SigMap) (k : String),
      ((inc.map Prod.fst).Nodup →
        ∀ v, getVal inc k = some v → getVal (mergeSignals m inc) k = some v) ∧
      (getVal inc k = none → getVal (mergeSignals m inc) k = getVal m k) ∧
      ((getVal m k).isSome → (getVal (mergeSignals m inc) k).isSome))
    ∧ mergeSignals [("a", .num 1), ("b", .num 2)] [("b", .num 3), ("c", .num 4)]
        = [("a", .num 1), ("b", .num 3), ("c", .num 4)] := by
  refine ⟨?_, by decide⟩
  intro m inc k
  refine ⟨?_, getVal_merge_absent inc m k, ?_⟩
  · intro hnd v hv
    induction inc generalizing m with
    | nil => simp [getVal] at hv
    | cons kv rest ih =>
        obtain ⟨k1, v1⟩ := kv
        simp only [List.map_cons, List.nodup_cons] at hnd
        by_cases h1 : k1 = k
        · subst h1
          simp [getVal] at hv
          subst hv
          have hnone : getVal rest k1 = none :=
            getVal_eq_none_of_not_mem rest k1 hnd.1
          show getVal (mergeSignals (setKey m k1 v1) rest) k1 = some v1
          rw [getVal_merge_absent rest (setKey m k1 v1) k1 hnone,
            getVal_setKey_self]
        · have hv' : getVal rest k = some v := by
            simpa [getVal, h1] using hv
          exact ih (setKey m k1 v1) hnd.2 hv'
  · intro hsome
    induction inc generalizing m with
    | nil => exact hsome
    | cons kv rest ih =>
        exact ih (setKey m kv.1 kv.2) (getVal_setKey_isSome m kv.1 k kv.2 hsome)

/-- Witness for `c6_signal_merge` at the concrete maps of the claim. -/
theorem c6_signal_merge_witness :
    getVal (mergeSignals [("a", .num 1), ("b", .num 2)] [("b", .num 3), ("c", .num 4)]) "b"
      = some (.num 3) ∧
    getVal (mergeSignals [("a", .num 1), ("b", .num 2)] [("b", .num 3), ("c", .num 4)]) "a"
      = getVal [("a", SigVal.num 1), ("b", SigVal.num 2)] "a" ∧
    (getVal (mergeSignals [("a", .num 1), ("b", .num 2)] [("b", .num 3), ("c", .num 4)]) "a").isSome :=
  ⟨(c6_signal_merge.1 [("a", .num 1), ("b", .num 2)] [("b", .num 3), ("c", .num 4)] "b").1
      (by decide) (.num 3) (by decide),
   (c6_signal_merge.1 [("a", .num 1), ("b", .num 2)] [("b", .num 3), ("c", .num 4)] "a").2.1
      (by decide),
   (c6_signal_merge.1 [("a", .num 1), ("b", .num 2)] [("b", .num 3), ("c", .num 4)] "a").2.2
      (by decide)⟩

/-- Upper-casing after lower-casing agrees with upper-casing directly. -/
theorem upperChar_lowerChar (c : Char) : upperChar (lowerChar c) = upperChar c := by
  unfold lowerChar
  split <;> rfl

/-- Map version of `upperChar_lowerChar`. -/
theorem asciiUpper_asciiLower (l : Str) : asciiUpper (asciiLower l) = asciiUpper l := by
  simp [asciiUpper, asciiLower, List.map_map, Function.comp, upperChar_lowerChar]

/-- The sequence-index component of `classifyFile` is exactly the one
produced by `extractSeqIndex`. -/
theorem classifyFile_idx (stem : Str) :
    (classifyFile stem).2.2 = (extractSeqIndex stem).2 := by
  unfold classifyFile
  dsimp only
  split
  · rfl
  · split <;> split <;> rfl

/-- A successful `goAtoi` of a string without a leading minus sign is
nonnegative. -/
theorem goAtoi_nonneg (s : Str) (n : Int) (h : goAtoi s = some n)
    (hs : s.headD ' ' ≠ '-') : 0 ≤ n := by
  unfold goAtoi at h
  dsimp only at h
  by_cases h1 : s = []
  · rw [if_pos h1] at h
    exact absurd h (by simp)
  · rw [if_neg h1] at h
    generalize (if s.headD ' ' = '-' ∨ s.headD ' ' = '+' then List.drop 1 s else s)
      = digits at h
    by_cases h2 : digits = []
    · rw [if_pos h2] at h
      exact absurd h (by simp)
    · rw [if_neg h2] at h
      by_cases h3 : allDigits digits = true
      · rw [if_neg (not_not_intro h3)] at h
        rw [if_neg hs] at h
        split_ifs at h with h4
        all_goals
          first
            | exact Option.noConfusion h
            | (rw [Option.some.injEq] at h
               subst h
               exact Int.natCast_nonneg _)
      · rw [if_pos h3] at h
        exact absurd h (by simp)

/-- A lower-cased known-method string upper-cases to one of the five
fixed uppercase method names. -/
theorem method_of_known (rem : Str) (hkm : isKnownMethod (asciiLower rem)) :
    asciiUpper rem = "GET".data ∨ asciiUpper rem = "POST".data ∨
    asciiUpper rem = "PUT".data ∨ asciiUpper rem = "PATCH".data ∨
    asciiUpper rem = "DELETE".data := by
  unfold isKnownMethod at hkm
  rcases hkm with h | h | h | h | h
  · exact Or.inl (by rw [← asciiUpper_asciiLower, h]; rfl)
  · exact Or.inr (Or.inl (by rw [← asciiUpper_asciiLower, h]; rfl))
  · exact Or.inr (Or.inr (Or.inl (by rw [← asciiUpper_asciiLower, h]; rfl)))
  · exact Or.inr (Or.inr (Or.inr (Or.inl (by rw [← asciiUpper_asciiLower, h]; rfl))))
  · exact Or.inr (Or.inr (Or.inr (Or.inr (by rw [← asciiUpper_asciiLower, h]; rfl))))

/-- C4 (counterexample): the stem `"a_-2"` classifies with sequence
index `-2`, below the claimed lower bound of `-1` (the `_`-suffix is
parsed by `strconv.Atoi`, which accepts a sign). -/
theorem c4_counterexample :
    (classifyFile ("a_-2".data)).2.2 = -2 ∧
    ¬ (-1 : Int) ≤ (classifyFile ("a_-2".data)).2.2 := by
  constructor
  · decide
  · decide

/-- C4 (amended): classification is total, always yielding a method in
`{"", GET, POST, PUT, PATCH, DELETE}` and a boolean kind; the sequence
index is at least `-1` for every stem whose post-underscore suffix does
not carry an explicit negative sign (a signed suffix such as `"a_-2"`
yields that negative value instead). -/
theorem c4_classifier_totality :
    ∀ stem : Str,
    ((classifyFile stem).1 = [] ∨ (classifyFile stem).1 = "GET".data ∨
     (classifyFile stem).1 = "POST".data ∨ (classifyFile stem).1 = "PUT".data ∨
     (classifyFile stem).1 = "PATCH".data ∨ (classifyFile stem).1 = "DELETE".data)
    ∧ (negSignedSuffix stem = false → -1 ≤ (classifyFile stem).2.2) := by
  intro stem
  constructor
  · unfold classifyFile
    dsimp only
    split
    · exact Or.inl rfl
    · split <;> split
      · rename_i hkm
        dsimp only
        exact Or.inr (method_of_known _ hkm)
      · exact Or.inl rfl
      · rename_i hkm
        dsimp only
        exact Or.inr (method_of_known _ hkm)
      · exact Or.inl rfl
  · intro hneg
    rw [classifyFile_idx]
    unfold extractSeqIndex
    cases hlast : lastUnderscore? stem with
    | none => simp
    | some i =>
        dsimp only
        cases hat : goAtoi (stem.drop (i + 1)) with
        | none => simp
        | some n =>
            dsimp only
            split
            · have hhead : (stem.drop (i + 1)).headD ' ' ≠ '-' := by
                unfold negSignedSuffix at hneg
                rw [hlast] at hneg
                simpa using hneg
              have := goAtoi_nonneg _ n hat hhead
              omega
            · simp

/-- Witness for `c4_classifier_totality` at the stem `"post_001"`. -/
theorem c4_classifier_totality_witness :
    ((classifyFile ("post_001".data)).1 = [] ∨
     (classifyFile ("post_001".data)).1 = "GET".data ∨
     (classifyFile ("post_001".data)).1 = "POST".data ∨
     (classifyFile ("post_001".data)).1 = "PUT".data ∨
     (classifyFile ("post_001".data)).1 = "PATCH".data ∨
     (classifyFile ("post_001".data)).1 = "DELETE".data)
    ∧ (-1 : Int) ≤ (classifyFile ("post_001".data)).2.2 :=
  ⟨(c4_classifier_totality ("post_001".data)).1,
   (c4_classifier_totality ("post_001".data)).2 (by decide)⟩

/-- The boolean initial-run test agrees with the append
characterization. -/
theorem isPre_iff (p : Str) : ∀ s, isPre p s = true ↔ ∃ t, p ++ t = s := by
  induction p with
  | nil => intro s; simp [isPre]
  | cons c cs ih =>
      intro s
      cases s with
      | nil => simp [isPre]
      | cons d ds =>
          simp only [isPre, Bool.and_eq_true, beq_iff_eq, ih ds,
            List.cons_append, List.cons.injEq]
          constructor
          · rintro ⟨rfl, t, rfl⟩
            exact ⟨t, rfl, rfl⟩
          · rintro ⟨t, rfl, h⟩
            exact ⟨rfl, t, h⟩

/-- An occurrence in a cons is either an occurrence at the head or one
in the tail. -/
theorem occursIn_cons (sep : Str) (c : Char) (r : Str) :
    occursIn sep (c :: r) ↔ (∃ t, sep ++ t = c :: r) ∨ occursIn sep r := by
  constructor
  · rintro ⟨a, b, h⟩
    cases a with
    | nil => exact Or.inl ⟨b, h⟩
    | cons x a' =>
        injection h with h1 h2
        exact Or.inr ⟨a', b, h2⟩
  · rintro (⟨t, h⟩ | ⟨a, b, h⟩)
    · exact ⟨[], t, h⟩
    · exact ⟨c :: a, b, by rw [List.cons_append, h]⟩

/-- Only the empty string occurs in the empty string. -/
theorem occursIn_nil (sep : Str) : occursIn sep [] ↔ sep = [] := by
  constructor
  · rintro ⟨a, b, h⟩
    exact (List.append_eq_nil.mp (List.append_eq_nil.mp h).2).1
  · rintro rfl
    exact ⟨[], [], rfl⟩

/-- `findSub` answers `none` exactly when the separator does not occur. -/
theorem findSub_none_iff (sep : Str) : ∀ s, findSub sep s = none ↔ ¬ occursIn sep s := by
  intro s
  induction s with
  | nil =>
      simp only [findSub, occursIn_nil]
      constructor
      · intro h hsep
        subst hsep
        simp [isPre] at h
      · intro h
        have hp : isPre sep [] ≠ true := fun hpre => by
          obtain ⟨t, ht⟩ := (isPre_iff sep []).mp hpre
          exact h (List.append_eq_nil.mp ht).1
        simp [hp]
  | cons c r ih =>
      simp only [findSub, occursIn_cons]
      constructor
      · intro h
        rintro (⟨t, ht⟩ | hocc)
        · have hp : isPre sep (c :: r) = true := (isPre_iff sep (c :: r)).mpr ⟨t, ht⟩
          rw [if_pos hp] at h
          cases h
        · by_cases hp : isPre sep (c :: r) = true
          · rw [if_pos hp] at h
            cases h
          · rw [if_neg hp] at h
            have hr : findSub sep r = none := by
              cases hfr : findSub sep r with
              | none => rfl
              | some j =>
                  rw [hfr] at h
                  simp at h
            exact ih.mp hr hocc
      · intro h
        have h12 := not_or.mp h
        have hp : isPre sep (c :: r) ≠ true := fun hpre =>
          h12.1 ((isPre_iff _ _).mp hpre)
        rw [if_neg hp, ih.mpr h12.2]
        rfl

/-- A string is a slice of itself. -/
theorem sliceOf_refl (s : Str) : sliceOf s s := ⟨[], [], by simp⟩

/-- Slices compose. -/
theorem sliceOf_trans {r s t : Str} (h1 : sliceOf r s) (h2 : sliceOf s t) :
    sliceOf r t := by
  obtain ⟨u1, v1, e1⟩ := h1
  obtain ⟨u2, v2, e2⟩ := h2
  exact ⟨u2 ++ u1, v1 ++ v2, by rw [← e2, ← e1]; simp [List.append_assoc]⟩

/-- Dropping a front segment gives a slice. -/
theorem sliceOf_drop (s : Str) (n : Nat) : sliceOf (s.drop n) s :=
  ⟨s.take n, [], by simp⟩

/-- Dropping a leading run gives a slice. -/
theorem sliceOf_dropWhile (p : Char → Bool) (s : Str) :
    sliceOf (s.dropWhile p) s :=
  ⟨s.takeWhile p, [], by simp [List.takeWhile_append_dropWhile]⟩

/-- Trimming whitespace from both ends gives a slice. -/
theorem sliceOf_trim (s : Str) : sliceOf (trimSpaceL s) s := by
  unfold trimSpaceL
  have h1 : sliceOf (((s.dropWhile isSpaceChar).reverse.dropWhile isSpaceChar).reverse)
      (s.dropWhile isSpaceChar) := by
    refine ⟨[], ((s.dropWhile isSpaceChar).reverse.takeWhile isSpaceChar).reverse, ?_⟩
    rw [List.nil_append, ← List.reverse_append, List.takeWhile_append_dropWhile,
      List.reverse_reverse]
  exact sliceOf_trans h1 (sliceOf_dropWhile _ s)

/-- Removing a literal leading marker gives a slice. -/
theorem sliceOf_stripPre (p s : Str) : sliceOf (stripPre p s) s := by
  unfold stripPre
  split
  · exact sliceOf_drop s p.length
  · exact sliceOf_refl s

/-- Non-occurrence passes to slices. -/
theorem not_occursIn_of_sliceOf {sep r s : Str} (hsl : sliceOf r s)
    (h : ¬ occursIn sep s) : ¬ occursIn sep r := by
  rintro ⟨a, b, e⟩
  obtain ⟨u, v, e2⟩ := hsl
  exact h ⟨u ++ a, b ++ v, by rw [← e2, ← e]; simp [List.append_assoc]⟩

/-- Splitting on a separator that does not occur returns the whole
string as one segment. -/
theorem splitOnSep_of_none {sep s : Str} (hsep : sep ≠ [])
    (h : findSub sep s = none) : splitOnSep sep s = [s] := by
  unfold splitOnSep
  rw [if_neg hsep]
  cases s with
  | nil => rfl
  | cons c r =>
      show splitGo sep (r.length + 1) (c :: r) = [c :: r]
      simp only [splitGo, h]

/-- With no separator occurrence the section list is the single trimmed
body. -/
theorem mkSections_single {body : Str}
    (h : findSub ("\n===\n".data) body = none) :
    mkSections body = [trimSpaceL body] := by
  unfold mkSections
  rw [splitOnSep_of_none (by decide) h]
  rfl

/-- C5: parsing preserves empty sections — the example file splits into
exactly the sections `"A"`, `""`, `"B"` with `loop` decoded — and any
content without an occurrence of the section delimiter parses to
exactly one section. -/
theorem c5_section_split :
    parseFileContent exC5 =
      some { frontmatter := { loop := true }, sections := ["A".data, [], "B".data] }
    ∧ ∀ content : Str, findSub ("\n===\n".data) content = none →
        ∀ pf, parseFileContent content = some pf → pf.sections.length = 1 := by
  constructor
  · decide
  · intro content h pf hpf
    have hocc : ¬ occursIn ("\n===\n".data) content := (findSub_none_iff _ content).mp h
    unfold parseFileContent at hpf
    dsimp only at hpf
    by_cases hfm : isPre ("---".data) (trimSpaceL content) = true
    · rw [if_pos hfm] at hpf
      cases hidx : findSub ("\n---".data) ((trimSpaceL content).drop 3) with
      | none =>
          rw [hidx] at hpf
          dsimp only at hpf
          rw [Option.some.injEq] at hpf
          subst hpf
          dsimp only
          rw [mkSections_single h]
          rfl
      | some endIdx =>
          rw [hidx] at hpf
          dsimp only at hpf
          cases hfmp : parseFM (((trimSpaceL content).drop 3).take endIdx) with
          | none =>
              rw [hfmp] at hpf
              simp at hpf
          | some fm =>
              rw [hfmp] at hpf
              dsimp only at hpf
              rw [Option.some.injEq] at hpf
              subst hpf
              have hocc2 : ¬ occursIn ("\n===\n".data)
                  (stripPre ['\n'] (((trimSpaceL content).drop 3).drop (endIdx + 4))) := by
                refine not_occursIn_of_sliceOf ?_ hocc
                exact sliceOf_trans (sliceOf_stripPre _ _)
                  (sliceOf_trans (sliceOf_drop _ _)
                    (sliceOf_trans (sliceOf_drop _ _) (sliceOf_trim content)))
              have hnone2 := (findSub_none_iff ("\n===\n".data) _).mpr hocc2
              dsimp only
              rw [mkSections_single hnone2]
              rfl
    · rw [if_neg hfm] at hpf
      rw [Option.some.injEq] at hpf
      subst hpf
      dsimp only
      rw [mkSections_single h]
      rfl

/-- Witness for `c5_section_split`: delimiter-free content yields one
section. -/
theorem c5_section_split_witness :
    ((parseFileContent "hello".data).getD default).sections.length = 1 := by
  have hsome : parseFileContent "hello".data =
      some ((parseFileContent "hello".data).getD default) := rfl
  exact c5_section_split.2 "hello".data (by decide) _ hsome

end DsPlay
